import Mathlib

/-!
Verification development for the rcs3ud transfer engine.

Shallow embedding of the Rust sources:
* src/maybe_retryable_sdk_error.rs  — retry classifier
* src/retry.rs                      — retry driver (keep_retrying)
* src/file_backed_amount_limiter.rs — file-backed monthly amount limiter
* src/download.rs                   — download state machine (restore polling,
                                      reservation recovery)
* src/operation_scheduler.rs        — TimesOfDay scheduler
* src/upload_chunked.rs             — chunked upload driver

Machine integers (usize) are modelled as Nat; fallible/panicking code returns
Option; the async event streams are modelled as explicit lists of emitted
events; each sleep is counted rather than timed.
-/

/-! ## Retry classifier (src/maybe_retryable_sdk_error.rs) -/

/-- Model of aws_smithy SdkError<E, Response>. The service-error variant
carries the HTTP status code of the raw response; other payloads are
irrelevant to the classifier and are omitted. -/
inductive SdkError where
  | constructionFailure
  | timeoutError
  | dispatchFailure
  | responseError
  | serviceError (status : Nat)
deriving DecidableEq, Repr

/-- Model of MaybeRetryable from src/retry.rs. -/
inductive MaybeRetryable (E R : Type) where
  | Retryable (r : R)
  | NotRetryable (e : E)

/-- http StatusCode::is_server_error — true exactly for 500..=599. -/
def isServerError (status : Nat) : Bool :=
  500 ≤ status ∧ status ≤ 599

/-- Embedding of IntoMaybeRetryable::into_maybe_retryable
(src/maybe_retryable_sdk_error.rs lines 10-24): dispatch failures, timeouts
and response errors are retryable; a service error is retryable iff its
status is a server error; construction failures and anything else are not
retryable. -/
def into_maybe_retryable (e : SdkError) : MaybeRetryable SdkError SdkError :=
  match e with
  | .dispatchFailure | .timeoutError | .responseError => .Retryable e
  | .serviceError status =>
      if isServerError status then .Retryable e else .NotRetryable e
  | .constructionFailure => .NotRetryable e

/-! ## Retry driver (src/retry.rs, keep_retrying) -/

/-- One result of invoking the fallible async producer:
Result<T, MaybeRetryable<E, R>>. -/
inductive ProducerResult (T E R : Type) where
  | ok (v : T)
  | retryable (r : R)
  | notRetryable (e : E)

/-- Observable trace of one run of keep_retrying: the events sent
through the sipper sender, the number of sleep(interval) calls, the number
of producer invocations, and the final result. -/
structure RetryRun (T E R : Type) where
  events : List R
  sleeps : Nat
  calls : Nat
  result : Except E T

/-- Embedding of KeepRetryingExt::keep_retrying (src/retry.rs lines 25-38)
as a function of the sequence of results the producer yields on successive
invocations. Ok breaks out with the value before the sleep; NotRetryable
breaks out with the error before the sleep; Retryable sends the error as an
event, sleeps the interval, and loops. An empty/exhausted sequence means the
loop never terminates, modelled as none. -/
def keep_retrying {T E R : Type} : List (ProducerResult T E R) → Option (RetryRun T E R)
  | [] => none
  | .ok v :: _ => some ⟨[], 0, 1, .ok v⟩
  | .notRetryable e :: _ => some ⟨[], 0, 1, .error e⟩
  | .retryable r :: rest =>
      (keep_retrying rest).map fun run =>
        ⟨r :: run.events, run.sleeps + 1, run.calls + 1, run.result⟩

/-! ## File-backed amount limiter (src/file_backed_amount_limiter.rs)

The RON ledger file holds a FileData value; every read-modify-write cycle
reads it under an exclusive lock, transforms it in memory, and rewrites it.
We embed the in-memory transformations. usize amounts are Nat; UtcDateTime
timestamps are abstracted to Nat tick counts; the OrderMap queue is an
insertion-ordered association list with unique keys. -/

/-- Model of QueueItem (src/file_backed_amount_limiter.rs lines 22-27). -/
structure QueueItem where
  description : String
  amount : Nat
  time_added : Nat
deriving DecidableEq, Repr

/-- Model of time::Date, to the granularity the ledger uses. -/
structure LedgerDate where
  year : Nat
  month : Nat
  day : Nat
deriving DecidableEq, Repr

/-- Model of FileData (src/file_backed_amount_limiter.rs lines 29-34). -/
structure FileData where
  current_month : LedgerDate
  used_this_month : Nat
  queue : List (String × QueueItem)
deriving DecidableEq, Repr

/-- OrderMap lookup by key (first — and with unique keys, only — match). -/
def queueLookup (id : String) : List (String × QueueItem) → Option QueueItem
  | [] => none
  | (k, v) :: rest => if k = id then some v else queueLookup id rest

/-- Sum of the amounts of the queue entries strictly preceding id, i.e. the
queue_total computed in reserve (src/file_backed_amount_limiter.rs lines
166-169) as the sum over the slice before get_index_of(id). -/
def queueTotal (id : String) : List (String × QueueItem) → Nat
  | [] => 0
  | (k, v) :: rest => if k = id then 0 else v.amount + queueTotal id rest

/-- The admission test of the reserve wait loop
(src/file_backed_amount_limiter.rs line 171): the limit is stretched to
max(limit, len) so oversized single operations can still proceed. -/
def reserveAdmitted (limit len : Nat) (id : String) (data : FileData) : Bool :=
  decide (data.used_this_month + queueTotal id data.queue + len ≤ max limit len)

/-- Month rollover performed by DataFile::open_and_read
(src/file_backed_amount_limiter.rs lines 108-114): when the stored month
differs from the current one, the month is reset and usage zeroed. -/
def monthRollover (now : LedgerDate) (data : FileData) : FileData :=
  if (data.current_month.year, data.current_month.month) = (now.year, now.month)
  then data
  else { data with current_month := now, used_this_month := 0 }

/-- The enqueue step of reserve (src/file_backed_amount_limiter.rs lines
157-161): queue.entry(id).or_insert(...) leaves an existing entry untouched
and otherwise appends a fresh entry at the end. -/
def enqueueReservation (id description : String) (len now : Nat)
    (q : List (String × QueueItem)) : List (String × QueueItem) :=
  if (queueLookup id q).isSome then q
  else q ++ [(id, ⟨description, len, now⟩)]

/-- The wait loop of reserve (src/file_backed_amount_limiter.rs lines
163-190) as a function of the successive ledger snapshots read at each
check (other processes may change the file between checks). Each iteration
re-reads the ledger; if id is missing, get_index_of(id).unwrap() panics
(modelled as none); if the admission test passes the loop breaks, returning
the snapshot it observed at the moment of return; otherwise it sleeps to
the next month boundary and re-checks. An exhausted snapshot list models a
loop that has not yet returned. -/
def reserveWaitLoop (limit len : Nat) (id : String) :
    List FileData → Option FileData
  | [] => none
  | data :: rest =>
      match queueLookup id data.queue with
      | none => none
      | some _ =>
          if reserveAdmitted limit len id data then some data
          else reserveWaitLoop limit len id rest

/-- OrderMap::remove of the ordermap crate: removes the entry for the key,
returning its value, shifting later entries up so that insertion order is
preserved; none when the key is absent. -/
def removeQueue (id : String) :
    List (String × QueueItem) → Option (QueueItem × List (String × QueueItem))
  | [] => none
  | (k, v) :: rest =>
      if k = id then some (v, rest)
      else (removeQueue id rest).map fun r => (r.1, (k, v) :: r.2)

/-- Embedding of FileBackedAmountReservation::mark_complete
(src/file_backed_amount_limiter.rs lines 224-234): remove the queue entry
for id (queue.remove(id).unwrap(): a missing entry panics, modelled as
none) and add its amount to used_this_month. -/
def markComplete (id : String) (data : FileData) : Option FileData :=
  match removeQueue id data.queue with
  | none => none
  | some (item, q) =>
      some { data with
              queue := q
              used_this_month := data.used_this_month + item.amount }

/-! ## Download engine (src/download.rs) -/

/-- Model of SavedReservation (src/download.rs lines 64-69). -/
structure SavedReservation where
  amount : Nat
  reserved : Bool
deriving DecidableEq, Repr

/-- Model of DownloadStage (src/download.rs lines 55-62); the
RestoreInitiated payload is the last_checked SystemTime, modelled as a Nat
tick count. -/
inductive DownloadStage where
  | WillInitiateRestore
  | RestoreInitiated (last_checked : Nat)
  | RestoreComplete
deriving DecidableEq, Repr

/-- Model of SavedProgress (src/download.rs lines 71-75). -/
structure SavedProgress where
  reservation : Option SavedReservation
  stage : DownloadStage
deriving DecidableEq, Repr

/-- The three ways the download engine can end up holding a reservation at
startup. -/
inductive RecoveryAction where
  | reuseExisting
  | enqueueSaved (amount : Nat)
  | measureAndEnqueue
deriving DecidableEq, Repr

/-- Embedding of the reservation-recovery branch of download
(src/download.rs lines 188-220), as a function of the saved reservation and
of whether the limiter still has the id queued (get_reservation returning
Some): with a saved reservation the engine reuses the queued entry when
present and otherwise re-enqueues the saved amount; only with no saved
reservation at all does it measure the object length by HEAD and enqueue
the measured length. The saved reserved flag is never consulted. -/
def recoverReservation (saved : Option SavedReservation)
    (stillQueued : Bool) : RecoveryAction :=
  match saved with
  | some r => if stillQueued then .reuseExisting else .enqueueSaved r.amount
  | none => .measureAndEnqueue

/-- Refinement comparison for the recovery rule: this definition follows
the SPEC's words, not the code — reuse when still queued; else re-measure
by HEAD when the saved reserved flag is false; else enqueue the saved
amount. -/
def recoverReservationSpec (saved : Option SavedReservation)
    (stillQueued : Bool) : RecoveryAction :=
  match saved with
  | some r =>
      if stillQueued then .reuseExisting
      else if r.reserved = false then .measureAndEnqueue
      else .enqueueSaved r.amount
  | none => .measureAndEnqueue

/-- Subset of DownloadEvent (src/download.rs lines 119-135) relevant to the
restore-status poll step; the error-carrying progress events are emitted
inside the retry driver and are not part of this step's trace. -/
inductive DownloadEvent where
  | GettingObjectLen
  | ReservingDownloadAmount
  | RestoreInitiatedEvent
  | NotYetRestored
  | RestoreCompleteEvent
  | UpdateSavedProgress (progress : SavedProgress)
  | MarkingReservationComplete
deriving DecidableEq, Repr

/-- Subset of DownloadError (src/download.rs lines 90-110) reachable from
the poll step. -/
inductive DownloadError where
  | NoContentLength
  | NotRestoringOrRestored
  | UnknownRestoreString
deriving DecidableEq, Repr

/-- The x-amz-restore prefix that means the restore finished
(src/download.rs line 322). -/
def restoredMarker : List Char := "ongoing-request=\"false\"".toList

/-- The x-amz-restore prefix that means the restore is still running
(src/download.rs line 330). -/
def ongoingMarker : List Char := "ongoing-request=\"true\"".toList

/-- Embedding of the RestoreInitiated poll step of download
(src/download.rs lines 308-346), from the HEAD response's x-amz-restore
header (as an optional character list) after the retried HEAD succeeded:
header absent reverts the stage to WillInitiateRestore; a value starting
with the restored marker moves to RestoreComplete emitting RestoreComplete;
a value starting with the ongoing marker stays RestoreInitiated with
last_checked := now emitting NotYetRestored; anything else is the terminal
UnknownRestoreString error. Each non-terminal branch then emits
UpdateSavedProgress with the new stage. Returns the updated progress and
the emitted events in order. -/
def pollRestoreStatus (restoreHeader : Option (List Char)) (now : Nat)
    (progress : SavedProgress) :
    Except DownloadError (SavedProgress × List DownloadEvent) :=
  match restoreHeader with
  | none =>
      let p := { progress with stage := .WillInitiateRestore }
      .ok (p, [.UpdateSavedProgress p])
  | some message =>
      if restoredMarker.isPrefixOf message then
        let p := { progress with stage := .RestoreComplete }
        .ok (p, [.RestoreCompleteEvent, .UpdateSavedProgress p])
      else if ongoingMarker.isPrefixOf message then
        let p := { progress with stage := .RestoreInitiated now }
        .ok (p, [.NotYetRestored, .UpdateSavedProgress p])
      else .error .UnknownRestoreString

/-! ## TimesOfDay scheduler (src/operation_scheduler.rs) -/

/-- Seconds in a day; times of day are Nat seconds in [0, 86400). -/
def secondsPerDay : Nat := 86400

/-- Model of a Range<Time> interval. endTime stands for the source's end
field (a Lean keyword); the interval wraps midnight when endTime < start. -/
structure TimeInterval where
  start : Nat
  endTime : Nat
deriving DecidableEq, Repr

/-- Model of UtcDateTime at second granularity: a day index and a time of
day. -/
structure UtcDT where
  date : Nat
  time : Nat
deriving DecidableEq, Repr

/-- duration_between (src/operation_scheduler.rs lines 43-51): the clock
span from start to endTime, crossing midnight when start > endTime. -/
def durationBetween (start endTime : Nat) : Nat :=
  if start ≤ endTime then endTime - start
  else endTime + secondsPerDay - start

/-- The step-1 find_map of TimesOfDay::get_start_time
(src/operation_scheduler.rs lines 53-77): in interval order, choose a start
within today — the current time when now is already inside the interval
(for a non-wrapping interval only if now is before its end), otherwise the
interval's own start — and take the first interval whose remaining span
from that start fits the duration. -/
def findStartToday (now : UtcDT) (duration : Nat) :
    List TimeInterval → Option UtcDT
  | [] => none
  | i :: rest =>
      let start? : Option Nat :=
        if i.start < now.time then
          if i.start < i.endTime then
            if now.time < i.endTime then some now.time else none
          else some now.time
        else some i.start
      match start? with
      | some start =>
          if duration ≤ durationBetween start i.endTime then
            some ⟨now.date, start⟩
          else findStartToday now duration rest
      | none => findStartToday now duration rest

/-- Iterator::min_by_key — returns the first element with minimal key. -/
def minByKeyFirst (key : TimeInterval → Nat) : List TimeInterval → Option TimeInterval
  | [] => none
  | x :: xs =>
      some (xs.foldl (fun acc y => if key y < key acc then y else acc) x)

/-- Iterator::max_by_key — returns the last element with maximal key. -/
def maxByKeyLast (key : TimeInterval → Nat) : List TimeInterval → Option TimeInterval
  | [] => none
  | x :: xs =>
      some (xs.foldl (fun acc y => if key acc > key y then acc else y) x)

/-- Embedding of TimesOfDay::get_start_time (src/operation_scheduler.rs
lines 42-101). Step 1: a start within today whose remaining span fits.
Step 2: among intervals whose full length fits, the one with the earliest
start, dated tomorrow. Step 3: the interval picked by max_by_key on length
(the LAST of the sorted list on ties), dated today when its start is still
upcoming today, else tomorrow. The source unwraps the step-3 option
(the constructor rejects an empty interval list); we return Option. -/
def getStartTime (intervals : List TimeInterval) (now : UtcDT) (duration : Nat) :
    Option UtcDT :=
  match findStartToday now duration intervals with
  | some t => some t
  | none =>
      match minByKeyFirst (fun i => i.start)
          (intervals.filter fun i =>
            duration ≤ durationBetween i.start i.endTime) with
      | some i => some ⟨now.date + 1, i.start⟩
      | none =>
          (maxByKeyLast (fun i => durationBetween i.start i.endTime)
              intervals).map fun i =>
            ⟨if now.time < i.start then now.date else now.date + 1, i.start⟩

/-! ## Chunked upload driver (src/upload_chunked.rs) -/

/-- Model of UploadChunkedProgress (src/upload_chunked.rs lines 24-28). -/
structure UploadChunkedProgress where
  len : Option Nat
  parts_uploaded : Nat
deriving DecidableEq, Repr

/-- Rust usize::div_ceil. -/
def divCeil (a b : Nat) : Nat :=
  a / b + if a % b > 0 then 1 else 0

/-- Child object key "{object_key}/{i}" (src/upload_chunked.rs line 89). -/
def childKey (objectKey : String) (i : Nat) : String :=
  objectKey ++ "/" ++ toString i

/-- One chunk upload performed by the loop body: the child key it targets
and the byte window of the source file it covers. -/
structure ChunkUpload where
  key : String
  start : Nat
  len : Nat
deriving DecidableEq, Repr

/-- The while loop of upload_chunked (src/upload_chunked.rs lines 83-125):
while parts_uploaded < total_chunks (= div_ceil of the total length by the
chunk size), upload the window of length
min(total_len − parts_uploaded·chunk_size, chunk_size) starting at byte
parts_uploaded·chunk_size to the child key of index parts_uploaded, then
increment parts_uploaded and emit SaveProgres with the updated snapshot.
Returns the chunk uploads performed and the snapshots emitted, in order. -/
def uploadChunkedLoop (objectKey : String) (total_len chunk_size p : Nat) :
    List ChunkUpload × List UploadChunkedProgress :=
  if p < divCeil total_len chunk_size then
    let l := min (total_len - p * chunk_size) chunk_size
    let rest := uploadChunkedLoop objectKey total_len chunk_size (p + 1)
    (⟨childKey objectKey p, p * chunk_size, l⟩ :: rest.1,
      ⟨some total_len, p + 1⟩ :: rest.2)
  else ([], [])
termination_by divCeil total_len chunk_size - p
decreasing_by omega

/-! ## Claim theorems: C2, C3 -/

/-- C2: for every object-store SDK error e, into_maybe_retryable returns
Retryable (carrying e itself) exactly when e is a dispatch failure, a
timeout, a response error, or a service error with 5xx status, and returns
NotRetryable (carrying e itself) in every other case. Being a total Lean
function, the classifier is pure, total and deterministic. -/
theorem into_maybe_retryable_spec (e : SdkError) :
    (into_maybe_retryable e = .Retryable e ↔
      (e = .dispatchFailure ∨ e = .timeoutError ∨ e = .responseError ∨
        ∃ status, e = .serviceError status ∧ 500 ≤ status ∧ status ≤ 599)) ∧
    (into_maybe_retryable e = .NotRetryable e ∨
      into_maybe_retryable e = .Retryable e) := by
  constructor
  · constructor
    · intro h
      cases e with
      | constructionFailure => simp [into_maybe_retryable] at h
      | timeoutError => right; left; rfl
      | dispatchFailure => left; rfl
      | responseError => right; right; left; rfl
      | serviceError status =>
          right; right; right
          refine ⟨status, rfl, ?_⟩
          by_cases hs : isServerError status = true
          · simpa [isServerError, decide_eq_true_eq] using hs
          · simp [into_maybe_retryable, hs] at h
    · intro h
      rcases h with h | h | h | ⟨status, rfl, h1, h2⟩
      · subst h; rfl
      · subst h; rfl
      · subst h; rfl
      · have hs : isServerError status = true := by
          simp [isServerError, decide_eq_true_eq]
          exact ⟨h1, h2⟩
        simp [into_maybe_retryable, hs]
  · cases e with
    | constructionFailure => left; rfl
    | timeoutError => right; rfl
    | dispatchFailure => right; rfl
    | responseError => right; rfl
    | serviceError status =>
        by_cases hs : isServerError status = true
        · right; simp [into_maybe_retryable, hs]
        · left; simp [into_maybe_retryable, hs]

/-- C3: the retry driver, run against a producer that yields a finite
prefix of retryable errors followed by a decisive result, emits exactly
those retryable errors as events (in order), sleeps once per retryable
error, invokes the producer exactly one more time than the number of
retryable errors, and never invokes it again after the decisive result:
on Ok v it completes with v, on a terminal error e it completes with
error e, regardless of what the producer would have yielded afterwards. -/
theorem keep_retrying_spec {T E R : Type} (rs : List R) (v : T) (e : E)
    (rest rest' : List (ProducerResult T E R)) :
    keep_retrying (rs.map .retryable ++ .ok v :: rest) =
      some ⟨rs, rs.length, rs.length + 1, .ok v⟩ ∧
    keep_retrying (rs.map .retryable ++ .notRetryable e :: rest') =
      some ⟨rs, rs.length, rs.length + 1, .error e⟩ := by
  induction rs with
  | nil => exact ⟨rfl, rfl⟩
  | cons r rs ih =>
      refine ⟨?_, ?_⟩
      · simpa [keep_retrying, Option.map] using congrArg
          (Option.map fun run =>
            (⟨r :: run.events, run.sleeps + 1, run.calls + 1, run.result⟩ :
              RetryRun T E R)) ih.1
      · simpa [keep_retrying, Option.map] using congrArg
          (Option.map fun run =>
            (⟨r :: run.events, run.sleeps + 1, run.calls + 1, run.result⟩ :
              RetryRun T E R)) ih.2

/-! ## Limiter helper lemmas -/

/-- A key with no lookup result is not among the queue keys. -/
lemma not_mem_keys_of_queueLookup_eq_none {id : String}
    {q : List (String × QueueItem)} (h : queueLookup id q = none) :
    id ∉ q.map Prod.fst := by
  induction q with
  | nil => simp
  | cons e rest ih =>
      obtain ⟨k, v⟩ := e
      by_cases hk : k = id
      · simp [queueLookup, hk] at h
      · simp only [queueLookup, if_neg hk] at h
        simp only [List.map_cons]
        intro hmem
        rcases List.mem_cons.mp hmem with h1 | h2
        · exact hk h1.symm
        · exact (ih h) h2

/-- Filtering away id removes every binding of id. -/
lemma queueLookup_filter_ne (id : String) (q : List (String × QueueItem)) :
    queueLookup id (q.filter fun e => e.1 != id) = none := by
  induction q with
  | nil => rfl
  | cons e rest ih =>
      obtain ⟨k, v⟩ := e
      by_cases hk : k = id
      · simpa [List.filter_cons, hk] using ih
      · simp only [List.filter_cons]
        have hkb : ((k, v).1 != id) = true := by simpa [bne_iff_ne] using hk
        rw [if_pos hkb]
        simpa [queueLookup, hk] using ih

/-- With unique keys, ordermap removal of a present key drops exactly the
bindings of that key, preserving the rest in order. -/
lemma removeQueue_eq_filter {id : String} {q : List (String × QueueItem)}
    {item : QueueItem} (huniq : (q.map Prod.fst).Nodup)
    (hfound : queueLookup id q = some item) :
    removeQueue id q = some (item, q.filter fun e => e.1 != id) := by
  induction q with
  | nil => simp [queueLookup] at hfound
  | cons e rest ih =>
      obtain ⟨k, v⟩ := e
      simp only [List.map_cons, List.nodup_cons] at huniq
      by_cases hk : k = id
      · subst hk
        have hv : v = item := by simpa [queueLookup] using hfound
        subst hv
        have hrest : rest.filter (fun e => e.1 != k) = rest :=
          List.filter_eq_self.mpr (fun e hmem => by
            have hne : e.1 ≠ k := fun hek =>
              huniq.1 (by simpa [hek] using List.mem_map_of_mem Prod.fst hmem)
            simpa [bne_iff_ne] using hne)
        simp [removeQueue, List.filter_cons, hrest]
      · have hfound' : queueLookup id rest = some item := by
          simpa [queueLookup, hk] using hfound
        have hr := ih huniq.2 hfound'
        simp [removeQueue, hk, hr, List.filter_cons, bne_iff_ne]

/-- Ordermap removal succeeds exactly when lookup succeeds. -/
lemma removeQueue_eq_none_iff (id : String) (q : List (String × QueueItem)) :
    removeQueue id q = none ↔ queueLookup id q = none := by
  induction q with
  | nil => simp [removeQueue, queueLookup]
  | cons e rest ih =>
      obtain ⟨k, v⟩ := e
      by_cases hk : k = id
      · simp [removeQueue, queueLookup, hk]
      · simp only [removeQueue, queueLookup, if_neg hk]
        cases h : removeQueue id rest with
        | none =>
            constructor
            · intro _; exact ih.mp h
            · intro _; rfl
        | some r =>
            constructor
            · intro hc; exact absurd hc (Option.some_ne_none _)
            · intro hc
              have hnone := ih.mpr hc
              rw [h] at hnone
              cases hnone

/-! ## Claim theorems: C1, C4 -/

/-- C1: whenever the reserve wait loop returns, the ledger snapshot it
observed at the moment of return satisfies used_this_month + (sum of
amounts of queue entries strictly preceding id) + amount ≤ max(limit,
amount); and in particular the stretch rule: with zero usage and nothing
queued ahead, a reservation is admitted even when its amount exceeds the
monthly limit. -/
theorem reserve_admission_invariant (limit len : Nat) (id : String) :
    (∀ states data, reserveWaitLoop limit len id states = some data →
      data.used_this_month + queueTotal id data.queue + len ≤ max limit len) ∧
    (∀ data : FileData, data.used_this_month = 0 →
      queueTotal id data.queue = 0 →
      reserveAdmitted limit len id data = true) := by
  constructor
  · intro states
    induction states with
    | nil => intro data h; simp [reserveWaitLoop] at h
    | cons s rest ih =>
        intro data h
        unfold reserveWaitLoop at h
        cases hq : queueLookup id s.queue with
        | none => rw [hq] at h; cases h
        | some item =>
            rw [hq] at h
            by_cases ha : reserveAdmitted limit len id s = true
            · rw [if_pos ha] at h
              cases h
              simpa [reserveAdmitted, decide_eq_true_eq] using ha
            · rw [if_neg ha] at h
              exact ih data h
  · intro data h0 hq
    simp only [reserveAdmitted, h0, hq, Nat.zero_add, Nat.add_zero,
      decide_eq_true_eq]
    exact le_max_right limit len

/-- C1 witness: a ledger with zero usage and a single queued entry of
amount 5 against limit 3 is admitted immediately, and the returned snapshot
satisfies the admission inequality (stretch rule: 5 > 3). -/
theorem reserve_admission_invariant_witness :
    reserveWaitLoop 3 5 "d"
        [⟨⟨2025, 10, 1⟩, 0, [("d", ⟨"backup", 5, 0⟩)]⟩] =
      some ⟨⟨2025, 10, 1⟩, 0, [("d", ⟨"backup", 5, 0⟩)]⟩ ∧
    (0 : Nat) + queueTotal "d" [("d", ⟨"backup", 5, 0⟩)] + 5 ≤ max 3 5 :=
  ⟨by decide,
    (reserve_admission_invariant 3 5 "d").1
      [⟨⟨2025, 10, 1⟩, 0, [("d", ⟨"backup", 5, 0⟩)]⟩]
      ⟨⟨2025, 10, 1⟩, 0, [("d", ⟨"backup", 5, 0⟩)]⟩ (by decide)⟩

/-- C4: mark_complete on a ledger whose (unique-keyed) queue contains an
entry for id of amount a returns a ledger in which that entry is absent,
used_this_month has grown by exactly a, current_month is unchanged, and
the remaining queue entries are exactly the others, in their original
order. -/
theorem mark_complete_spec (data : FileData) (id : String) (item : QueueItem)
    (huniq : (data.queue.map Prod.fst).Nodup)
    (hfound : queueLookup id data.queue = some item) :
    ∃ d', markComplete id data = some d' ∧
      queueLookup id d'.queue = none ∧
      d'.used_this_month = data.used_this_month + item.amount ∧
      d'.current_month = data.current_month ∧
      d'.queue = data.queue.filter (fun e => e.1 != id) := by
  refine ⟨{ data with
            queue := data.queue.filter (fun e => e.1 != id)
            used_this_month := data.used_this_month + item.amount },
    ?_, ?_, rfl, rfl, rfl⟩
  · unfold markComplete
    rw [removeQueue_eq_filter huniq hfound]
  · exact queueLookup_filter_ne id data.queue

/-- C4 witness: completing the middle entry of a three-entry queue removes
exactly it, credits its amount, and keeps the outer entries in order. -/
theorem mark_complete_spec_witness :
    (([("a", ⟨"x", 1, 0⟩), ("b", ⟨"y", 2, 1⟩), ("c", ⟨"z", 3, 2⟩)] :
        List (String × QueueItem)).map Prod.fst).Nodup ∧
    queueLookup "b"
        [("a", ⟨"x", 1, 0⟩), ("b", ⟨"y", 2, 1⟩), ("c", ⟨"z", 3, 2⟩)] =
      some ⟨"y", 2, 1⟩ ∧
    ∃ d', markComplete "b"
        ⟨⟨2025, 10, 1⟩, 7,
          [("a", ⟨"x", 1, 0⟩), ("b", ⟨"y", 2, 1⟩), ("c", ⟨"z", 3, 2⟩)]⟩ =
        some d' ∧
      queueLookup "b" d'.queue = none ∧
      d'.used_this_month = 7 + 2 ∧
      d'.current_month = ⟨2025, 10, 1⟩ ∧
      d'.queue = [("a", ⟨"x", 1, 0⟩), ("b", ⟨"y", 2, 1⟩),
        ("c", ⟨"z", 3, 2⟩)].filter (fun e => e.1 != "b") :=
  ⟨by decide, by decide,
    mark_complete_spec
      ⟨⟨2025, 10, 1⟩, 7,
        [("a", ⟨"x", 1, 0⟩), ("b", ⟨"y", 2, 1⟩), ("c", ⟨"z", 3, 2⟩)]⟩
      "b" ⟨"y", 2, 1⟩ (by decide) (by decide)⟩

/-- C5: reserve is idempotent on id. When the queue already holds an entry
for id, the enqueue step of a second reserve call — whatever amount,
description or timestamp it carries — returns the queue unchanged, so the
existing entry keeps its description, amount, time_added and position; and
the enqueue step preserves key uniqueness, so every id has at most one
entry. -/
theorem reserve_idempotent (id description description' : String)
    (len len' now now' : Nat) :
    (∀ (q : List (String × QueueItem)) (item : QueueItem),
      queueLookup id q = some item →
      enqueueReservation id description' len' now' q = q) ∧
    (∀ q : List (String × QueueItem), (q.map Prod.fst).Nodup →
      ((enqueueReservation id description len now q).map Prod.fst).Nodup) := by
  constructor
  · intro q item hfound
    unfold enqueueReservation
    rw [hfound]
    rfl
  · intro q huniq
    unfold enqueueReservation
    cases hq : queueLookup id q with
    | some item => simpa using huniq
    | none =>
        have hnotmem := not_mem_keys_of_queueLookup_eq_none hq
        show (List.map Prod.fst
          (q ++ [(id, (⟨description, len, now⟩ : QueueItem))])).Nodup
        rw [List.map_append, List.nodup_append]
        refine ⟨huniq, by simp, ?_⟩
        intro a ha hab
        have haid : a = id := by simpa using hab
        exact hnotmem (haid ▸ ha)

/-- C5 witness: re-reserving an already queued id with a different amount
and description leaves the queue identical, and enqueueing into a
unique-keyed queue keeps keys unique. -/
theorem reserve_idempotent_witness :
    queueLookup "u" [("u", ⟨"first", 10, 0⟩)] = some ⟨"first", 10, 0⟩ ∧
    enqueueReservation "u" "second" 99 5 [("u", ⟨"first", 10, 0⟩)] =
      [("u", ⟨"first", 10, 0⟩)] ∧
    ((([("u", ⟨"first", 10, 0⟩)] :
        List (String × QueueItem)).map Prod.fst).Nodup →
      ((enqueueReservation "u" "first" 10 0
          [("u", ⟨"first", 10, 0⟩)]).map Prod.fst).Nodup) :=
  ⟨by decide,
    (reserve_idempotent "u" "first" "second" 10 99 0 5).1
      [("u", ⟨"first", 10, 0⟩)] ⟨"first", 10, 0⟩ (by decide),
    (reserve_idempotent "u" "first" "second" 10 99 0 5).2
      [("u", ⟨"first", 10, 0⟩)]⟩

/-- C10: mark_complete called when the queue holds no entry for its id hits
the unwrap of queue.remove(id) and panics (modelled as none) instead of
returning; under the documented precondition that the entry is present, the
panic branch is unreachable and mark_complete returns a ledger. -/
theorem mark_complete_panics_when_absent (data : FileData) (id : String) :
    (queueLookup id data.queue = none → markComplete id data = none) ∧
    (∀ item, queueLookup id data.queue = some item →
      (markComplete id data).isSome = true) := by
  constructor
  · intro h
    unfold markComplete
    rw [(removeQueue_eq_none_iff id data.queue).mpr h]
  · intro item h
    unfold markComplete
    cases hr : removeQueue id data.queue with
    | none =>
        rw [(removeQueue_eq_none_iff id data.queue).mp hr] at h
        cases h
    | some r => rfl

/-- C10 witness: a second mark_complete for the same reservation id (the
entry already removed) panics, while the first call, with the entry
present, returns. -/
theorem mark_complete_panics_when_absent_witness :
    queueLookup "r" (⟨⟨2025, 10, 1⟩, 6, []⟩ : FileData).queue = none ∧
    markComplete "r" ⟨⟨2025, 10, 1⟩, 6, []⟩ = none ∧
    queueLookup "r"
        (⟨⟨2025, 10, 1⟩, 0, [("r", ⟨"w", 6, 0⟩)]⟩ : FileData).queue =
      some ⟨"w", 6, 0⟩ ∧
    (markComplete "r" ⟨⟨2025, 10, 1⟩, 0, [("r", ⟨"w", 6, 0⟩)]⟩).isSome = true :=
  ⟨by decide,
    (mark_complete_panics_when_absent ⟨⟨2025, 10, 1⟩, 6, []⟩ "r").1 (by decide),
    by decide,
    (mark_complete_panics_when_absent
        ⟨⟨2025, 10, 1⟩, 0, [("r", ⟨"w", 6, 0⟩)]⟩ "r").2 ⟨"w", 6, 0⟩ (by decide)⟩

/-! ## Download-engine helper lemma and claim theorems: C6, C7 -/

/-- The two x-amz-restore markers disagree (at the character after the
opening quote), so no header value starts with both. -/
lemma restoredMarker_not_isPrefixOf_of_ongoing {m : List Char}
    (ho : ongoingMarker.isPrefixOf m = true) :
    restoredMarker.isPrefixOf m = false := by
  by_contra hr
  rw [Bool.not_eq_false, List.isPrefixOf_iff_prefix] at hr
  rw [List.isPrefixOf_iff_prefix] at ho
  rcases List.prefix_or_prefix_of_prefix ho hr with h | h
  · rw [← List.isPrefixOf_iff_prefix] at h
    revert h
    decide
  · rw [← List.isPrefixOf_iff_prefix] at h
    revert h
    decide

/-- C6 counterexample: with a saved reservation whose reserved flag is
false and an id no longer queued, the code enqueues the saved amount,
whereas the claim (and spec) call for a HEAD re-measure. -/
theorem recover_reservation_counterexample :
    recoverReservation (some ⟨5, false⟩) false = .enqueueSaved 5 ∧
    recoverReservationSpec (some ⟨5, false⟩) false = .measureAndEnqueue ∧
    RecoveryAction.enqueueSaved 5 ≠ RecoveryAction.measureAndEnqueue := by
  decide

/-- C6 (amended): when a SavedReservation is present and the limiter still
reports the id queued, the engine reuses it; when the id is no longer
queued it enqueues the saved amount regardless of the reserved flag; the
HEAD re-measure happens exactly when no saved reservation is present. -/
theorem recover_reservation_spec (r : SavedReservation) (b : Bool) :
    recoverReservation (some r) true = .reuseExisting ∧
    recoverReservation (some r) false = .enqueueSaved r.amount ∧
    recoverReservation none b = .measureAndEnqueue :=
  ⟨rfl, rfl, rfl⟩

/-- C7: after a successful HEAD in state RestoreInitiated, the poll step
maps the x-amz-restore header as follows — absent: back to
WillInitiateRestore; restored marker: to RestoreComplete, emitting
RestoreComplete; ongoing marker: stays RestoreInitiated with last_checked
= now, emitting NotYetRestored; anything else: terminal
UnknownRestoreString — and each non-terminal branch ends by emitting
UpdateSavedProgress carrying the new stage. -/
theorem poll_restore_status_cases (now : Nat) (progress : SavedProgress) :
    (pollRestoreStatus none now progress =
      .ok ({ progress with stage := .WillInitiateRestore },
        [.UpdateSavedProgress { progress with stage := .WillInitiateRestore }])) ∧
    (∀ message : List Char, restoredMarker.isPrefixOf message = true →
      pollRestoreStatus (some message) now progress =
        .ok ({ progress with stage := .RestoreComplete },
          [.RestoreCompleteEvent,
            .UpdateSavedProgress { progress with stage := .RestoreComplete }])) ∧
    (∀ message : List Char, ongoingMarker.isPrefixOf message = true →
      pollRestoreStatus (some message) now progress =
        .ok ({ progress with stage := .RestoreInitiated now },
          [.NotYetRestored,
            .UpdateSavedProgress { progress with stage := .RestoreInitiated now }])) ∧
    (∀ message : List Char, restoredMarker.isPrefixOf message = false →
      ongoingMarker.isPrefixOf message = false →
      pollRestoreStatus (some message) now progress =
        .error .UnknownRestoreString) := by
  refine ⟨rfl, ?_, ?_, ?_⟩
  · intro message h
    simp [pollRestoreStatus, h]
  · intro message h
    simp [pollRestoreStatus, h, restoredMarker_not_isPrefixOf_of_ongoing h]
  · intro message h1 h2
    simp [pollRestoreStatus, h1, h2]

/-- C7 witness: the four branches on concrete header values — a restored
header, an ongoing header, an unparsable header, and an absent header. -/
theorem poll_restore_status_cases_witness :
    (restoredMarker.isPrefixOf
        "ongoing-request=\"false\", expiry-date=\"Fri\"".toList = true ∧
      pollRestoreStatus
          (some "ongoing-request=\"false\", expiry-date=\"Fri\"".toList) 9
          ⟨none, .RestoreInitiated 4⟩ =
        .ok (⟨none, .RestoreComplete⟩,
          [.RestoreCompleteEvent, .UpdateSavedProgress ⟨none, .RestoreComplete⟩])) ∧
    (ongoingMarker.isPrefixOf "ongoing-request=\"true\"".toList = true ∧
      pollRestoreStatus (some "ongoing-request=\"true\"".toList) 9
          ⟨none, .RestoreInitiated 4⟩ =
        .ok (⟨none, .RestoreInitiated 9⟩,
          [.NotYetRestored, .UpdateSavedProgress ⟨none, .RestoreInitiated 9⟩])) ∧
    (restoredMarker.isPrefixOf "garbage".toList = false ∧
      ongoingMarker.isPrefixOf "garbage".toList = false ∧
      pollRestoreStatus (some "garbage".toList) 9 ⟨none, .RestoreInitiated 4⟩ =
        .error .UnknownRestoreString) ∧
    pollRestoreStatus none 9 ⟨none, .RestoreInitiated 4⟩ =
      .ok (⟨none, .WillInitiateRestore⟩,
        [.UpdateSavedProgress ⟨none, .WillInitiateRestore⟩]) :=
  ⟨⟨by decide,
      (poll_restore_status_cases 9 ⟨none, .RestoreInitiated 4⟩).2.1
        "ongoing-request=\"false\", expiry-date=\"Fri\"".toList (by decide)⟩,
    ⟨by decide,
      (poll_restore_status_cases 9 ⟨none, .RestoreInitiated 4⟩).2.2.1
        "ongoing-request=\"true\"".toList (by decide)⟩,
    ⟨by decide, by decide,
      (poll_restore_status_cases 9 ⟨none, .RestoreInitiated 4⟩).2.2.2
        "garbage".toList (by decide) (by decide)⟩,
    (poll_restore_status_cases 9 ⟨none, .RestoreInitiated 4⟩).1⟩

/-! ## Chunked-upload helper lemma and claim theorem: C9 -/

/-- Closed form of the chunked-upload loop: starting from part p it
performs one chunk per index in [p, total_chunks). -/
lemma uploadChunkedLoop_eq (objectKey : String) (total_len chunk_size : Nat) :
    ∀ (k p : Nat), divCeil total_len chunk_size - p = k →
      uploadChunkedLoop objectKey total_len chunk_size p =
        ((List.range' p k).map fun i =>
            ⟨childKey objectKey i, i * chunk_size,
              min chunk_size (total_len - i * chunk_size)⟩,
          (List.range' p k).map fun i => ⟨some total_len, i + 1⟩) := by
  intro k
  induction k with
  | zero =>
      intro p hp
      rw [uploadChunkedLoop]
      rw [if_neg (by omega)]
      simp [List.range']
  | succ k ih =>
      intro p hp
      rw [uploadChunkedLoop]
      rw [if_pos (by omega)]
      have hrest := ih (p + 1) (by omega)
      simp only [hrest]
      have hrange : List.range' p (k + 1) = p :: List.range' (p + 1) k := by
        simp [List.range']
      rw [hrange]
      simp [Nat.min_comm]

/-- C9: the chunked-upload driver performs exactly one chunk upload per
index i from the initial parts_uploaded through ceil(total_len /
chunk_size) − 1, chunk i targeting child key "{object_key}/{i}" and the
byte window starting at i·chunk_size of length min(chunk_size, total_len −
i·chunk_size), and emits after each chunk a SaveProgres snapshot whose
parts_uploaded is i + 1; in particular a 2500-byte file with chunk size
1000 produces three chunks "k/0", "k/1", "k/2" of sizes 1000, 1000, 500
and parts_uploaded reaches 3. -/
theorem upload_chunked_spec (objectKey : String)
    (total_len chunk_size p : Nat) :
    uploadChunkedLoop objectKey total_len chunk_size p =
      ((List.range' p (divCeil total_len chunk_size - p)).map fun i =>
          ⟨childKey objectKey i, i * chunk_size,
            min chunk_size (total_len - i * chunk_size)⟩,
        (List.range' p (divCeil total_len chunk_size - p)).map fun i =>
          ⟨some total_len, i + 1⟩) ∧
    uploadChunkedLoop "k" 2500 1000 0 =
      ([⟨"k/0", 0, 1000⟩, ⟨"k/1", 1000, 1000⟩, ⟨"k/2", 2000, 500⟩],
        [⟨some 2500, 1⟩, ⟨some 2500, 2⟩, ⟨some 2500, 3⟩]) := by
  constructor
  · exact uploadChunkedLoop_eq objectKey total_len chunk_size _ p rfl
  · rw [uploadChunkedLoop_eq "k" 2500 1000 (divCeil 2500 1000 - 0) 0 rfl]
    decide

/-! ## Scheduler helper lemma and claim theorems: C8 -/

/-- The max_by_key fold returns a member whose key is maximal; and on a
list whose starts are sorted, among key ties it returns one with the
largest start (the last such element). -/
lemma foldl_max_last (key : TimeInterval → Nat) :
    ∀ (l : List TimeInterval) (x : TimeInterval),
      (l.foldl (fun acc y => if key acc > key y then acc else y) x) ∈ x :: l ∧
      (∀ y ∈ x :: l,
        key y ≤ key (l.foldl (fun acc y => if key acc > key y then acc else y) x)) ∧
      (List.Pairwise (fun a b => a.start ≤ b.start) (x :: l) →
        ∀ y ∈ x :: l,
          key y = key (l.foldl (fun acc y => if key acc > key y then acc else y) x) →
          y.start ≤ (l.foldl (fun acc y => if key acc > key y then acc else y) x).start) := by
  intro l
  induction l with
  | nil =>
      intro x
      refine ⟨List.mem_cons_self x [], ?_, ?_⟩
      · intro y hy
        rw [List.mem_singleton] at hy
        exact hy ▸ Nat.le_refl _
      · intro _ y hy _
        rw [List.mem_singleton] at hy
        exact hy ▸ Nat.le_refl _
  | cons z l ih =>
      intro x
      simp only [List.foldl_cons]
      by_cases hxz : key x > key z
      · rw [if_pos hxz]
        obtain ⟨hmem, hmax, htie⟩ := ih x
        refine ⟨?_, ?_, ?_⟩
        · rcases List.mem_cons.mp hmem with h | h
          · rw [h]; exact List.mem_cons_self _ _
          · exact List.mem_cons_of_mem x (List.mem_cons_of_mem z h)
        · intro y hy
          rcases List.mem_cons.mp hy with rfl | hy2
          · exact hmax y (List.mem_cons_self _ _)
          · rcases List.mem_cons.mp hy2 with rfl | hy3
            · exact Nat.le_trans (Nat.le_of_lt hxz)
                (hmax x (List.mem_cons_self _ _))
            · exact hmax y (List.mem_cons_of_mem x hy3)
        · intro hp y hy hkey
          obtain ⟨hp1, hp2⟩ := List.pairwise_cons.mp hp
          obtain ⟨hz1, hl⟩ := List.pairwise_cons.mp hp2
          have hp' : List.Pairwise (fun a b => a.start ≤ b.start) (x :: l) :=
            List.pairwise_cons.mpr
              ⟨fun w hw => hp1 w (List.mem_cons_of_mem z hw), hl⟩
          rcases List.mem_cons.mp hy with rfl | hy2
          · exact htie hp' y (List.mem_cons_self _ _) hkey
          · rcases List.mem_cons.mp hy2 with rfl | hy3
            · have hxr := hmax x (List.mem_cons_self _ _)
              omega
            · exact htie hp' y (List.mem_cons_of_mem x hy3) hkey
      · rw [if_neg hxz]
        obtain ⟨hmem, hmax, htie⟩ := ih z
        refine ⟨List.mem_cons_of_mem x hmem, ?_, ?_⟩
        · intro y hy
          rcases List.mem_cons.mp hy with rfl | hy2
          · exact Nat.le_trans (Nat.le_of_not_lt hxz)
              (hmax z (List.mem_cons_self _ _))
          · exact hmax y hy2
        · intro hp y hy hkey
          obtain ⟨hp1, hp2⟩ := List.pairwise_cons.mp hp
          rcases List.mem_cons.mp hy with rfl | hy2
          · exact hp1 _ hmem
          · exact htie hp2 y hy2 hkey

/-- C8 counterexample: intervals [01:00, 02:00) and [03:00, 04:00) (in
seconds), now 00:00 on day 0, duration 2 hours. Neither step 1 nor step 2
applies and the two intervals tie for longest, yet get_start_time returns
the LATER start 03:00, not the earliest start 01:00 which the claim
requires. -/
theorem times_of_day_tiebreak_counterexample :
    findStartToday ⟨0, 0⟩ 7200 [⟨3600, 7200⟩, ⟨10800, 14400⟩] = none ∧
    (∀ i ∈ [(⟨3600, 7200⟩ : TimeInterval), ⟨10800, 14400⟩],
      durationBetween i.start i.endTime < 7200) ∧
    durationBetween 3600 7200 = durationBetween 10800 14400 ∧
    getStartTime [⟨3600, 7200⟩, ⟨10800, 14400⟩] ⟨0, 0⟩ 7200 =
      some ⟨0, 10800⟩ ∧
    some (⟨0, 10800⟩ : UtcDT) ≠ some ⟨0, 3600⟩ := by
  decide

/-- C8 (amended): when no interval fits the duration starting today and no
interval's full (wrap-aware) length reaches the duration, get_start_time
returns the start of a longest interval, dated today when that start is
still after the current time of day and tomorrow otherwise; when several
intervals tie for longest, the LATEST start among them (the last of the
start-sorted list) is chosen. -/
theorem times_of_day_longest_fallback (intervals : List TimeInterval)
    (now : UtcDT) (duration : Nat)
    (h1 : findStartToday now duration intervals = none)
    (h2 : ∀ i ∈ intervals, durationBetween i.start i.endTime < duration)
    (h3 : intervals ≠ [])
    (hsorted : List.Pairwise (fun a b => a.start ≤ b.start) intervals) :
    ∃ i ∈ intervals,
      getStartTime intervals now duration =
        some ⟨if now.time < i.start then now.date else now.date + 1, i.start⟩ ∧
      (∀ j ∈ intervals, durationBetween j.start j.endTime ≤
          durationBetween i.start i.endTime) ∧
      (∀ j ∈ intervals, durationBetween j.start j.endTime =
          durationBetween i.start i.endTime → j.start ≤ i.start) := by
  obtain ⟨x, l, rfl⟩ : ∃ x l, intervals = x :: l := by
    cases intervals with
    | nil => exact absurd rfl h3
    | cons a b => exact ⟨a, b, rfl⟩
  have hfilter : ((x :: l).filter fun i =>
      duration ≤ durationBetween i.start i.endTime) = [] :=
    List.filter_eq_nil_iff.mpr fun a ha => by
      simpa using Nat.not_le.mpr (h2 a ha)
  obtain ⟨hmem, hmax, htie⟩ :=
    foldl_max_last (fun i => durationBetween i.start i.endTime) l x
  refine ⟨_, hmem, ?_, hmax, htie hsorted⟩
  unfold getStartTime
  rw [h1, hfilter]
  rfl

/-- C8 amended-claim witness: the counterexample input satisfies all
hypotheses, and the longest-interval fallback indeed picks the latest-start
longest interval there. -/
theorem times_of_day_longest_fallback_witness :
    findStartToday ⟨0, 0⟩ 7200 [⟨3600, 7200⟩, ⟨10800, 14400⟩] = none ∧
    (∀ i ∈ [(⟨3600, 7200⟩ : TimeInterval), ⟨10800, 14400⟩],
      durationBetween i.start i.endTime < 7200) ∧
    ([(⟨3600, 7200⟩ : TimeInterval), ⟨10800, 14400⟩] ≠ []) ∧
    List.Pairwise (fun a b => a.start ≤ b.start)
      [(⟨3600, 7200⟩ : TimeInterval), ⟨10800, 14400⟩] ∧
    ∃ i ∈ [(⟨3600, 7200⟩ : TimeInterval), ⟨10800, 14400⟩],
      getStartTime [⟨3600, 7200⟩, ⟨10800, 14400⟩] ⟨0, 0⟩ 7200 =
        some ⟨if (0 : Nat) < i.start then 0 else 0 + 1, i.start⟩ ∧
      (∀ j ∈ [(⟨3600, 7200⟩ : TimeInterval), ⟨10800, 14400⟩],
        durationBetween j.start j.endTime ≤
          durationBetween i.start i.endTime) ∧
      (∀ j ∈ [(⟨3600, 7200⟩ : TimeInterval), ⟨10800, 14400⟩],
        durationBetween j.start j.endTime =
          durationBetween i.start i.endTime → j.start ≤ i.start) :=
  ⟨by decide, by decide, by decide, by decide,
    times_of_day_longest_fallback [⟨3600, 7200⟩, ⟨10800, 14400⟩] ⟨0, 0⟩ 7200
      (by decide) (by decide) (by decide) (by decide)⟩
